import Mathlib

/-!
Verification of the IAM database-authentication group-sync service
(`iam_groups_authn`): a shallow embedding of its reconciliation core in
Lean 4, with theorems about group resolution, plan computation, role-name
validation, dialect routing and the sync orchestration.

Python strings are modelled on the character list underlying `String`
(`String.data`), so that every embedded string operation is computable by
the kernel.  Python `str.split`, `str.startswith`, `str.removesuffix` and
`len` are embedded as list operations on `String.data`, which matches
Python's code-point semantics.
-/

namespace IamGroupsAuthn

/-- Python `s.startswith(p)` on code points. -/
def startswith (s p : String) : Bool := p.data.isPrefixOf s.data

/-- Python `s.removesuffix(suf)`: drop one trailing occurrence of `suf`
if present, else return `s` unchanged. -/
def removesuffix (s suf : String) : String :=
  if suf.data.isSuffixOf s.data then ⟨s.data.take (s.data.length - suf.data.length)⟩ else s

/-- Python `len(s)` (code points). -/
def strlen (s : String) : Nat := s.data.length

/-- Embedding of `mysql_username` (src/iam_groups_authn/mysql.py):
`iam_email.split("@")[0]`, everything before the first `@`. -/
def mysql_username (iam_email : String) : String :=
  ⟨iam_email.data.takeWhile (fun c => c ≠ '@')⟩

/-- Embedding of `postgres_username` (src/iam_groups_authn/postgres.py):
`iam_email.removesuffix(".gserviceaccount.com")`. -/
def postgres_username (iam_email : String) : String :=
  removesuffix iam_email ".gserviceaccount.com"

/-- Embedding of the `DatabaseVersion` enum (src/iam_groups_authn/utils.py).
Its seven members are the supported database versions. -/
inductive DatabaseVersion where
  | MYSQL_8_0
  | POSTGRES_14
  | POSTGRES_13
  | POSTGRES_12
  | POSTGRES_11
  | POSTGRES_10
  | POSTGRES_9_6
deriving DecidableEq, Repr

/-- The string value of each `DatabaseVersion` enum member. -/
def DatabaseVersion.value : DatabaseVersion → String
  | .MYSQL_8_0 => "MYSQL_8_0"
  | .POSTGRES_14 => "POSTGRES_14"
  | .POSTGRES_13 => "POSTGRES_13"
  | .POSTGRES_12 => "POSTGRES_12"
  | .POSTGRES_11 => "POSTGRES_11"
  | .POSTGRES_10 => "POSTGRES_10"
  | .POSTGRES_9_6 => "POSTGRES_9_6"

/-- `DatabaseVersion.is_mysql`: `self.value.startswith("MYSQL")`. -/
def DatabaseVersion.is_mysql (v : DatabaseVersion) : Bool := startswith v.value "MYSQL"

/-- `DatabaseVersion.is_postgres`: `self.value.startswith("POSTGRES")`. -/
def DatabaseVersion.is_postgres (v : DatabaseVersion) : Bool := startswith v.value "POSTGRES"

/-- Python `DatabaseVersion(s)` enum lookup: the member whose value equals
`s` exactly, `none` (Python: `ValueError`) otherwise. -/
def DatabaseVersion.ofValue (s : String) : Option DatabaseVersion :=
  if s = "MYSQL_8_0" then some .MYSQL_8_0
  else if s = "POSTGRES_14" then some .POSTGRES_14
  else if s = "POSTGRES_13" then some .POSTGRES_13
  else if s = "POSTGRES_12" then some .POSTGRES_12
  else if s = "POSTGRES_11" then some .POSTGRES_11
  else if s = "POSTGRES_10" then some .POSTGRES_10
  else if s = "POSTGRES_9_6" then some .POSTGRES_9_6
  else none

/-- Embedding of `UserService.get_database_version`
(src/iam_groups_authn/sync.py, lines 297-333): the reported
`databaseVersion` string is passed to `DatabaseVersion(...)` as is; a
string that is not exactly one of the enum values raises the
unsupported-version `ValueError`. -/
def get_database_version (databaseVersion : String) : Except String DatabaseVersion :=
  match DatabaseVersion.ofValue databaseVersion with
  | some v => Except.ok v
  | none => Except.error "Unsupported database version for instance"

/-! ## Identity resolver (src/iam_groups_authn/iam_admin.py, get_iam_users) -/

/-- A member record returned by the directory API: a `type` tag
(`"GROUP"`, `"USER"`, or another ignorable kind) and an `email`. -/
structure Member where
  mtype : String
  email : String
deriving DecidableEq, Repr

/-- The directory service modelled as a finite table: each known group
maps either to its member list or to a lookup failure. -/
abbrev Directory := List (String × Except String (List Member))

/-- Embedding of `UserService.get_group_members`
(src/iam_groups_authn/sync.py, lines 208-235): a lookup that fails (the
group does not exist or the API call errors) raises a wrapped exception;
no error is swallowed. -/
def get_group_members (dir : Directory) (group : String) : Except String (List Member) :=
  match dir.find? (fun p => p.1 = group) with
  | some p => p.2
  | none =>
    Except.error ("Error: Failed to get IAM members of IAM group " ++ group ++
      ". Verify group exists and is configured correctly.")

/-- The emails of the `GROUP`-typed members of a member list. -/
def groupEmails (ms : List Member) : List String :=
  (ms.filter (fun m => m.mtype = "GROUP")).map (fun m => m.email)

/-- The emails of the `USER`-typed members of a member list. -/
def userEmails : List Member → List String
  | [] => []
  | m :: ms => if m.mtype = "USER" then m.email :: userEmails ms else userEmails ms

/-- One pass of the inner `for member in members` loop of `get_iam_users`
restricted to its effect on `searched_groups`/`group_queue`: the `GROUP`
members whose email is not yet in `searched_groups`, in order, each one
added to `searched_groups` before the next member is examined. -/
def newGroups (searched : List String) : List Member → List String
  | [] => []
  | m :: ms =>
    if m.mtype = "GROUP" then
      if m.email ∈ searched then newGroups searched ms
      else m.email :: newGroups (searched ++ [m.email]) ms
    else newGroups searched ms

/-- All group emails that can ever be enqueued from the directory table:
the `GROUP` member emails of every successful entry.  Used only as the
termination measure of the traversal. -/
def enqueueable (dir : Directory) : Finset String :=
  (dir.map (fun p => match p.2 with | .ok ms => groupEmails ms | .error _ => [])).flatten.toFinset

/-- The `while group_queue` loop of `get_iam_users`
(src/iam_groups_authn/iam_admin.py, lines 41-58): pop the front group,
fetch its members (propagating a lookup failure), add `USER` emails to
the result set, enqueue unseen `GROUP` emails, and repeat.  Total by
well-founded recursion: `searched` only grows inside the finite set of
enqueueable group emails, and is checked before re-enqueueing. -/
def group_loop (dir : Directory) (searched queue : List String) (users : Finset String) :
    Except String (Finset String) :=
  match queue with
  | [] => .ok users
  | g :: rest =>
    match hfetch : get_group_members dir g with
    | .error e => .error e
    | .ok ms =>
      group_loop dir (searched ++ newGroups searched ms) (rest ++ newGroups searched ms)
        (users ∪ (userEmails ms).toFinset)
termination_by ((enqueueable dir \ searched.toFinset).card, queue.length)
decreasing_by
  have hsub : ∀ (s : List String) (ms' : List Member),
      ∀ a ∈ newGroups s ms', a ∉ s ∧ a ∈ groupEmails ms' := by
    intro s ms'
    induction ms' generalizing s with
    | nil => simp [newGroups]
    | cons m tl ih =>
      intro a ha
      rw [newGroups] at ha
      have hge : groupEmails (m :: tl)
          = if m.mtype = "GROUP" then m.email :: groupEmails tl else groupEmails tl := by
        by_cases hty : m.mtype = "GROUP" <;> simp [groupEmails, hty]
      rw [hge]
      split at ha
      · rename_i hty
        rw [if_pos hty]
        split at ha
        · rcases ih s a ha with ⟨h1, h2⟩
          exact ⟨h1, List.mem_cons_of_mem _ h2⟩
        · rename_i hne
          rcases List.mem_cons.mp ha with rfl | ha'
          · exact ⟨hne, List.mem_cons_self _ _⟩
          · rcases ih _ a ha' with ⟨h1, h2⟩
            exact ⟨fun hc => h1 (by simp [hc]), List.mem_cons_of_mem _ h2⟩
      · rename_i hty
        rw [if_neg hty]
        exact ih s a ha
  have hcand : ∀ e ∈ groupEmails ms, e ∈ enqueueable dir := by
    intro e he
    unfold get_group_members at hfetch
    split at hfetch
    · rename_i p hf
      have hpm := List.mem_of_find?_eq_some hf
      simp only [enqueueable, List.mem_toFinset, List.mem_flatten]
      exact ⟨groupEmails ms, List.mem_map.mpr ⟨p, hpm, by rw [hfetch]⟩, he⟩
    · cases hfetch
  rcases h : newGroups searched ms with _ | ⟨a, added⟩
  · apply Prod.Lex.right'
    · simp
    · simp
  · apply Prod.Lex.left
    apply Finset.card_lt_card
    rw [Finset.ssubset_iff_of_subset]
    · have ha : a ∈ newGroups searched ms := by rw [h]; exact List.mem_cons_self _ _
      rcases hsub searched ms a ha with ⟨hns, hge⟩
      refine ⟨a, ?_, ?_⟩
      · rw [Finset.mem_sdiff]
        exact ⟨hcand a hge, by simpa using hns⟩
      · intro hmem
        rw [Finset.mem_sdiff] at hmem
        exact hmem.2 (by simp [h])
    · apply Finset.sdiff_subset_sdiff le_rfl
      intro x hx
      simp at hx ⊢
      tauto

/-- The body of the `for group in groups` loop of `get_iam_users` for one
starting group: BFS from `group` with `searched_groups` and `group_queue`
both seeded with it and an empty user set. -/
def resolve_group (dir : Directory) (group : String) : Except String (Finset String) :=
  group_loop dir [group] [group] ∅

/-- Embedding of `get_iam_users` (src/iam_groups_authn/iam_admin.py,
lines 36-62): resolve each group of the list; a group whose resolved set
is empty is skipped, the others are collected with their user sets.  Any
lookup failure inside a group's traversal propagates. -/
def get_iam_users (dir : Directory) : List String → Except String (List (String × Finset String))
  | [] => .ok []
  | g :: gs =>
    match resolve_group dir g with
    | .error e => .error e
    | .ok s =>
      match get_iam_users dir gs with
      | .error e => .error e
      | .ok rest => .ok (if s = ∅ then rest else (g, s) :: rest)

/-- The groups transitively reachable from the starting group through
`GROUP`-typed membership edges that resolve successfully. -/
inductive ReachableGroup (dir : Directory) (start : String) : String → Prop where
  | base : ReachableGroup dir start start
  | step {g e : String} {ms : List Member} (hg : ReachableGroup dir start g)
      (hok : get_group_members dir g = .ok ms) (hmem : e ∈ groupEmails ms) :
      ReachableGroup dir start e

/-- A user email reachable from the starting group: a `USER`-typed member
of some reachable group. -/
def ReachableUser (dir : Directory) (start : String) (u : String) : Prop :=
  ∃ g ms, ReachableGroup dir start g ∧ get_group_members dir g = .ok ms ∧ u ∈ userEmails ms

/-- Loop invariant of the BFS worklist. -/
structure LoopInv (dir : Directory) (start : String)
    (searched queue : List String) (users : Finset String) : Prop where
  start_mem : start ∈ searched
  queue_sub : ∀ g ∈ queue, g ∈ searched
  queue_nodup : queue.Nodup
  searched_reach : ∀ g ∈ searched, ReachableGroup dir start g
  users_sound : ∀ u ∈ users, ReachableUser dir start u
  processed : ∀ g, g ∈ searched → g ∉ queue →
    ∃ ms, get_group_members dir g = .ok ms ∧
      (∀ e ∈ groupEmails ms, e ∈ searched) ∧ (∀ u ∈ userEmails ms, u ∈ users)

/-! ## Role services (src/iam_groups_authn/mysql.py, postgres.py)

The role-grant state of one database instance is modelled as the list of
`(role, member)` grant edges (MySQL's `mysql.role_edges` rows /
Postgres's `pg_auth_members` join), and each service call is modelled by
the SQL statements it executes and its effect on that state. -/

/-- A SQL statement executed by a role service. -/
inductive Stmt where
  | grant (role user : String)
  | revoke (role user : String)
  | grant_batch (role : String) (users : List String)
  | revoke_batch (role : String) (users : List String)
deriving DecidableEq, Repr

/-- The grant-edge relation of one instance. -/
abbrev DbState := List (String × String)

/-- Effect of one `GRANT role TO user` on the grant-edge relation (the
relation is a set of edges: granting an existing edge is a no-op). -/
def grantEdge (db : DbState) (role user : String) : DbState :=
  if (role, user) ∈ db then db else db ++ [(role, user)]

/-- Effect of one `REVOKE role FROM user` on the grant-edge relation. -/
def revokeEdge (db : DbState) (role user : String) : DbState :=
  db.filter (fun p => p ≠ (role, user))

namespace MysqlRoleService

/-- `MysqlRoleService.fetch_role_grants` (src/iam_groups_authn/mysql.py,
lines 52-70): `SELECT FROM_USER, TO_USER FROM mysql.role_edges WHERE
FROM_USER = :group_name`. -/
def fetch_role_grants (db : DbState) (group_name : String) : List (String × String) :=
  db.filter (fun p => p.1 = group_name)

/-- `MysqlRoleService.grant_group_role` (src/iam_groups_authn/mysql.py,
lines 86-100): one `GRANT :role TO :user` statement per user in the list;
returns the new state and the statements executed. -/
def grant_group_role (role : String) (users : List String) (db : DbState) :
    DbState × List Stmt :=
  (users.foldl (fun d user => grantEdge d role user) db,
   users.map (fun user => Stmt.grant role user))

/-- `MysqlRoleService.revoke_group_role` (src/iam_groups_authn/mysql.py,
lines 102-116): one `REVOKE :role FROM :user` statement per user. -/
def revoke_group_role (role : String) (users : List String) (db : DbState) :
    DbState × List Stmt :=
  (users.foldl (fun d user => revokeEdge d role user) db,
   users.map (fun user => Stmt.revoke role user))

end MysqlRoleService

namespace PostgresRoleService

/-- `PostgresRoleService.fetch_role_grants`
(src/iam_groups_authn/postgres.py, lines 53-71): the `pg_auth_members`
join filtered by role name, projecting `(rolname, member rolname)`. -/
def fetch_role_grants (db : DbState) (group_name : String) : List (String × String) :=
  db.filter (fun p => p.1 = group_name)

/-- `PostgresRoleService.grant_group_role`
(src/iam_groups_authn/postgres.py, lines 94-109): `if users:` guards the
single batched `GRANT "role" TO "u1", "u2", ...` statement; an empty
list executes nothing. -/
def grant_group_role (role : String) (users : List String) (db : DbState) :
    DbState × List Stmt :=
  if users.isEmpty then (db, [])
  else (users.foldl (fun d user => grantEdge d role user) db, [Stmt.grant_batch role users])

/-- `PostgresRoleService.revoke_group_role`
(src/iam_groups_authn/postgres.py, lines 111-127): `if users:` guards the
single batched `REVOKE "role" FROM "u1", "u2", ...` statement. -/
def revoke_group_role (role : String) (users : List String) (db : DbState) :
    DbState × List Stmt :=
  if users.isEmpty then (db, [])
  else (users.foldl (fun d user => revokeEdge d role user) db, [Stmt.revoke_batch role users])

end PostgresRoleService

/-- Dialect dispatch used by `groups_sync`: MySQL service if
`database_version.is_mysql()` else the Postgres service. -/
def fetch_role_grants (v : DatabaseVersion) (db : DbState) (group_name : String) :
    List (String × String) :=
  if v.is_mysql then MysqlRoleService.fetch_role_grants db group_name
  else PostgresRoleService.fetch_role_grants db group_name

/-- `get_users_with_roles` (src/iam_groups_authn/sync.py, lines 376-391):
the `TO_USER` side (`grant[1]`) of each fetched grant row. -/
def get_users_with_roles (v : DatabaseVersion) (db : DbState) (role : String) : List String :=
  (fetch_role_grants v db role).map (fun grant => grant.2)

/-! ## Reconciliation planner (src/iam_groups_authn/sync.py, lines 394-460) -/

/-- The list-comprehension core of `revoke_iam_group_role`
(src/iam_groups_authn/sync.py, lines 410-424): MySQL truncates the IAM
side with `mysql_username`, any other dialect compares the raw emails;
keep the users with the role that are not in the IAM list. -/
def users_to_revoke (database_type : DatabaseVersion)
    (iam_users users_with_roles : List String) : List String :=
  let iam_users' := if database_type.is_mysql then iam_users.map mysql_username else iam_users
  users_with_roles.filter (fun user_with_role => user_with_role ∉ iam_users')

/-- The list-comprehension core of `grant_iam_group_role`
(src/iam_groups_authn/sync.py, lines 447-457): keep the (MySQL:
truncated) IAM users that are not among the users with the role. -/
def users_to_grant (database_type : DatabaseVersion)
    (iam_users users_with_roles : List String) : List String :=
  let iam_users' := if database_type.is_mysql then iam_users.map mysql_username else iam_users
  iam_users'.filter (fun user => user ∉ users_with_roles)

/-- `revoke_iam_group_role` (src/iam_groups_authn/sync.py, lines
394-428): compute the revoke list and pass it to the dialect's
`revoke_group_role`; returns the revoke list with the state effect. -/
def revoke_iam_group_role (database_type : DatabaseVersion) (role : String)
    (users_with_roles iam_users : List String) (db : DbState) :
    List String × DbState × List Stmt :=
  let toRevoke := users_to_revoke database_type iam_users users_with_roles
  let applied := if database_type.is_mysql then MysqlRoleService.revoke_group_role role toRevoke db
    else PostgresRoleService.revoke_group_role role toRevoke db
  (toRevoke, applied.1, applied.2)

/-- `grant_iam_group_role` (src/iam_groups_authn/sync.py, lines 431-460):
compute the grant list and pass it to the dialect's `grant_group_role`. -/
def grant_iam_group_role (database_type : DatabaseVersion) (role : String)
    (users_with_roles iam_users : List String) (db : DbState) :
    List String × DbState × List Stmt :=
  let toGrant := users_to_grant database_type iam_users users_with_roles
  let applied := if database_type.is_mysql then MysqlRoleService.grant_group_role role toGrant db
    else PostgresRoleService.grant_group_role role toGrant db
  (toGrant, applied.1, applied.2)

/-- One (group, instance) reconciliation round of `groups_sync`
(src/iam_groups_authn/sync.py, lines 127-188): snapshot the users with
the role, then apply the revoke list and the grant list (the two are
awaited together; they touch disjoint users, so they are applied here in
sequence).  Returns (revoked, granted, new state). -/
def sync_pair (v : DatabaseVersion) (role : String) (iam_users : List String) (db : DbState) :
    List String × List String × DbState :=
  let users_with_roles := get_users_with_roles v db role
  let revoked := revoke_iam_group_role v role users_with_roles iam_users db
  let granted := grant_iam_group_role v role users_with_roles iam_users revoked.2.1
  (revoked.1, granted.1, granted.2.1)

/-! ## Pre-flight role-name validation and orchestration
(src/iam_groups_authn/sync.py, lines 43-192 and 463-504) -/

/-- Errors raised by the sync path that we track. -/
inductive SyncError where
  | AttributeError
  | GroupRoleMaxLengthError (group : String)
deriving DecidableEq, Repr

/-- Python `dict.get(key, default)` for a string-keyed dict. -/
def dict_get (d : List (String × String)) (key default_ : String) : String :=
  match d.find? (fun p => p.1 = key) with
  | some p => p.2
  | none => default_

/-- `char_limit = 32 if database_version.is_mysql() else 63`
(src/iam_groups_authn/sync.py, line 494). -/
def char_limit (database_version : DatabaseVersion) : Nat :=
  if database_version.is_mysql then 32 else 63

/-- Embedding of `verify_group_role_length` (src/iam_groups_authn/sync.py,
lines 470-504).  `group_roles` is `Optional[dict]`: when it is `None`,
the first loop iteration evaluates `None.get(...)` and raises
`AttributeError`; otherwise each group's effective role
(`group_roles.get(iam_group, mysql_username(iam_group))`) is checked
against the dialect's character limit. -/
def verify_group_role_length (iam_groups : List String)
    (group_roles : Option (List (String × String)))
    (database_version : DatabaseVersion) : Except SyncError Unit :=
  match iam_groups with
  | [] => .ok ()
  | iam_group :: rest =>
    match group_roles with
    | none => .error .AttributeError
    | some gr =>
      if strlen (dict_get gr iam_group (mysql_username iam_group)) > char_limit database_version
      then .error (.GroupRoleMaxLengthError iam_group)
      else verify_group_role_length rest group_roles database_version

/-- Externally observable steps of `groups_sync`, in program order. -/
inductive Event where
  | schedule_group_resolve (group : String)
  | schedule_instance_users (inst : String)
  | net_get_database_version (inst : String)
  | pair_work (group inst : String)
deriving DecidableEq, Repr

/-- The `for instance in sql_instances` loop of `groups_sync`
(src/iam_groups_authn/sync.py, lines 87-94): schedule the instance-users
task, await the database-version API call, then run the pre-flight
role-length check; its error aborts the loop. -/
def instance_loop (iam_groups : List String) (group_roles : List (String × String))
    (dbv : String → DatabaseVersion) : List String → List Event × Option SyncError
  | [] => ([], none)
  | inst :: rest =>
    let evs := [Event.schedule_instance_users inst, Event.net_get_database_version inst]
    match verify_group_role_length iam_groups (some group_roles) (dbv inst) with
    | .error e => (evs, some e)
    | .ok _ =>
      let tail := instance_loop iam_groups group_roles dbv rest
      (evs ++ tail.1, tail.2)

/-- The per-pair work of `groups_sync` (src/iam_groups_authn/sync.py,
lines 97-188): every (group, instance) pair of the Cartesian product
opens a connection pool and runs provisioning, role creation and the
grant/revoke round. -/
def pair_events (iam_groups sql_instances : List String) : List Event :=
  (iam_groups.map (fun g => sql_instances.map (fun i => Event.pair_work g i))).flatten

/-- Control-flow model of `groups_sync` (src/iam_groups_authn/sync.py,
lines 43-192): schedule one resolver task per group, run the instance
loop (database-version lookups interleaved with the pre-flight length
check), and only if no check failed run the per-pair work.  Returns the
ordered trace of observable steps together with the outcome;
`dbv` maps each instance to the database version it reports. -/
def groups_sync (iam_groups sql_instances : List String)
    (group_roles : List (String × String)) (dbv : String → DatabaseVersion) :
    List Event × Except SyncError Unit :=
  let evs0 := iam_groups.map Event.schedule_group_resolve
  let looped := instance_loop iam_groups group_roles dbv sql_instances
  match looped.2 with
  | some e => (evs0 ++ looped.1, .error e)
  | none => (evs0 ++ looped.1 ++ pair_events iam_groups sql_instances, .ok ())

/-! ## Spec-side definitions (for refinement comparison only) -/

/-- Written from the spec's words (§4.2 `localName`): the dialect's
local-name normalization — MySQL truncates at `@`, Postgres strips a
trailing `.gserviceaccount.com`. -/
def localName (v : DatabaseVersion) (account : String) : String :=
  if v.is_mysql then mysql_username account else postgres_username account

/-- Written from the spec's words (§4.4 with §4.2 applied): the grant
list computed from local-name-normalized desired members. -/
def users_to_grant_spec (v : DatabaseVersion) (iam_users users_with_roles : List String) :
    List String :=
  (iam_users.map (localName v)).filter (fun user => user ∉ users_with_roles)

/-- Written from the spec's words (§4.4 with §4.2 applied): the revoke
list computed against local-name-normalized desired members. -/
def users_to_revoke_spec (v : DatabaseVersion) (iam_users users_with_roles : List String) :
    List String :=
  users_with_roles.filter (fun user => user ∉ iam_users.map (localName v))

/-- `isOk` of an `Except` value. -/
def isOk {ε α : Type} : Except ε α → Bool
  | .ok _ => true
  | .error _ => false

/-- Decidable sufficient condition for every reachable group lookup to
succeed: the start group's lookup succeeds, and every `GROUP` member
email of every successful directory entry has a successful lookup. -/
def directory_closed (dir : Directory) (start : String) : Bool :=
  isOk (get_group_members dir start) &&
  dir.all (fun p => match p.2 with
    | .ok ms => (groupEmails ms).all (fun e => isOk (get_group_members dir e))
    | .error _ => true)

/-- Concrete directory with a two-group membership cycle
(`tests/test_get_iam_users.py::test_group_loop`). -/
def cycleDirectory : Directory :=
  [("test-group2@abc.com", .ok [⟨"USER", "jack@test.com"⟩, ⟨"USER", "jane@xyz.com"⟩,
      ⟨"GROUP", "test-group3@xyz.com"⟩]),
   ("test-group3@xyz.com", .ok [⟨"USER", "test@test.com"⟩, ⟨"GROUP", "test-group2@abc.com"⟩])]

/-- Concrete directory whose top-level group resolves but whose nested
group's lookup fails. -/
def nestedFailDirectory : Directory :=
  [("top-group@test.com", .ok [⟨"GROUP", "nested-group@test.com"⟩, ⟨"USER", "user@test.com"⟩])]

/-! # Theorems -/

/-! ## Generic helper lemmas -/

theorem groupEmails_cons (m : Member) (ms : List Member) :
    groupEmails (m :: ms)
      = if m.mtype = "GROUP" then m.email :: groupEmails ms else groupEmails ms := by
  by_cases hty : m.mtype = "GROUP" <;> simp [groupEmails, hty]

theorem newGroups_sub {searched : List String} {ms : List Member} :
    ∀ a ∈ newGroups searched ms, a ∉ searched ∧ a ∈ groupEmails ms := by
  induction ms generalizing searched with
  | nil => simp [newGroups]
  | cons m tl ih =>
    intro a ha
    rw [newGroups] at ha
    rw [groupEmails_cons]
    split at ha
    · rename_i hty
      rw [if_pos hty]
      split at ha
      · rcases ih a ha with ⟨h1, h2⟩
        exact ⟨h1, List.mem_cons_of_mem _ h2⟩
      · rename_i hne
        rcases List.mem_cons.mp ha with rfl | ha'
        · exact ⟨hne, List.mem_cons_self _ _⟩
        · rcases ih a ha' with ⟨h1, h2⟩
          exact ⟨fun hc => h1 (by simp [hc]), List.mem_cons_of_mem _ h2⟩
    · rename_i hty
      rw [if_neg hty]
      exact ih a ha

theorem newGroups_nodup {searched : List String} {ms : List Member} :
    (newGroups searched ms).Nodup := by
  induction ms generalizing searched with
  | nil => simp [newGroups]
  | cons m tl ih =>
    rw [newGroups]
    split
    · split
      · exact ih
      · refine List.Nodup.cons ?_ ih
        intro hc
        rcases newGroups_sub _ hc with ⟨h1, _⟩
        exact h1 (by simp)
    · exact ih

theorem newGroups_cover {searched : List String} {ms : List Member} :
    ∀ e ∈ groupEmails ms, e ∈ searched ++ newGroups searched ms := by
  induction ms generalizing searched with
  | nil => simp [groupEmails]
  | cons m tl ih =>
    intro e he
    rw [groupEmails_cons] at he
    rw [newGroups]
    split at he
    · rename_i hty
      rw [if_pos hty]
      rcases List.mem_cons.mp he with rfl | he'
      · by_cases hmem : m.email ∈ searched
        · rw [if_pos hmem]
          exact List.mem_append_left _ hmem
        · rw [if_neg hmem]
          simp
      · by_cases hmem : m.email ∈ searched
        · rw [if_pos hmem]
          exact ih e he'
        · rw [if_neg hmem]
          have := @ih (searched ++ [m.email]) e he'
          simp at this ⊢
          tauto
    · rename_i hty
      rw [if_neg hty]
      exact ih e he

/-! ## C1: the reconciliation plan is the pair of set differences -/

theorem mem_users_to_grant {v : DatabaseVersion} {iam_users users_with_roles : List String}
    {x : String} :
    x ∈ users_to_grant v iam_users users_with_roles ↔
      x ∈ (if v.is_mysql then iam_users.map mysql_username else iam_users) ∧
        x ∉ users_with_roles := by
  simp [users_to_grant]

theorem mem_users_to_revoke {v : DatabaseVersion} {iam_users users_with_roles : List String}
    {x : String} :
    x ∈ users_to_revoke v iam_users users_with_roles ↔
      x ∈ users_with_roles ∧
        x ∉ (if v.is_mysql then iam_users.map mysql_username else iam_users) := by
  simp [users_to_revoke]

/-- Claim C1: for every dialect and all (local-name-normalized) desired
and held member lists, the plan computed by `grant_iam_group_role` and
`revoke_iam_group_role` is, as sets, exactly `grant = desired − held` and
`revoke = held − desired`; the two are disjoint and
`(desired − revoke) ∪ grant = desired`. -/
theorem C1_plan_is_set_difference (v : DatabaseVersion) (role : String)
    (iam_users users_with_roles : List String) (db : DbState) :
    (grant_iam_group_role v role users_with_roles iam_users db).1.toFinset
        = (if v.is_mysql then iam_users.map mysql_username else iam_users).toFinset
            \ users_with_roles.toFinset ∧
    (revoke_iam_group_role v role users_with_roles iam_users db).1.toFinset
        = users_with_roles.toFinset
            \ (if v.is_mysql then iam_users.map mysql_username else iam_users).toFinset ∧
    Disjoint (grant_iam_group_role v role users_with_roles iam_users db).1.toFinset
        (revoke_iam_group_role v role users_with_roles iam_users db).1.toFinset ∧
    ((if v.is_mysql then iam_users.map mysql_username else iam_users).toFinset
          \ (revoke_iam_group_role v role users_with_roles iam_users db).1.toFinset)
        ∪ (grant_iam_group_role v role users_with_roles iam_users db).1.toFinset
      = (if v.is_mysql then iam_users.map mysql_username else iam_users).toFinset := by
  have hg : (grant_iam_group_role v role users_with_roles iam_users db).1
      = users_to_grant v iam_users users_with_roles := rfl
  have hr : (revoke_iam_group_role v role users_with_roles iam_users db).1
      = users_to_revoke v iam_users users_with_roles := rfl
  rw [hg, hr]
  refine ⟨?_, ?_, ?_, ?_⟩
  · ext x
    simp [mem_users_to_grant]
  · ext x
    simp [mem_users_to_revoke]
  · rw [Finset.disjoint_left]
    intro x hx hx'
    rw [List.mem_toFinset, mem_users_to_grant] at hx
    rw [List.mem_toFinset, mem_users_to_revoke] at hx'
    exact hx.2 hx'.1
  · ext x
    simp only [Finset.mem_union, Finset.mem_sdiff, List.mem_toFinset,
      mem_users_to_grant, mem_users_to_revoke]
    by_cases hx : x ∈ users_with_roles <;>
      by_cases hy : x ∈ (if v.is_mysql then iam_users.map mysql_username else iam_users) <;>
        simp [hx, hy]

/-! ## C2: which dialects normalize before the diff -/

/-- Claim C2 (counterexample): for a Postgres instance, the resolved
service-account email is NOT normalized with `postgres_username` before
the comparison — the code plans to grant the raw email and revoke the
stored local name, while the spec's normalized comparison plans neither. -/
theorem C2_normalization_counterexample :
    users_to_grant .POSTGRES_14 ["svc@project.iam.gserviceaccount.com"] ["svc@project.iam"]
        = ["svc@project.iam.gserviceaccount.com"] ∧
    users_to_grant_spec .POSTGRES_14 ["svc@project.iam.gserviceaccount.com"] ["svc@project.iam"]
        = [] ∧
    users_to_revoke .POSTGRES_14 ["svc@project.iam.gserviceaccount.com"] ["svc@project.iam"]
        = ["svc@project.iam"] ∧
    users_to_revoke_spec .POSTGRES_14 ["svc@project.iam.gserviceaccount.com"] ["svc@project.iam"]
        = [] := by
  refine ⟨?_, ?_, ?_, ?_⟩ <;> decide

/-- Claim C2 (amended): the dialect's local-name normalization is applied
to the desired side of the diff only for MySQL dialects
(`mysql_username`); for Postgres dialects the resolved member emails are
compared raw against the users holding the role — `postgres_username` is
not applied inside `grant_iam_group_role`/`revoke_iam_group_role`. -/
theorem C2_normalization_amended (v : DatabaseVersion) (iam_users users_with_roles : List String) :
    (v.is_mysql = true →
      users_to_grant v iam_users users_with_roles
          = users_to_grant_spec v iam_users users_with_roles ∧
      users_to_revoke v iam_users users_with_roles
          = users_to_revoke_spec v iam_users users_with_roles) ∧
    (v.is_mysql = false →
      users_to_grant v iam_users users_with_roles
          = iam_users.filter (fun user => user ∉ users_with_roles) ∧
      users_to_revoke v iam_users users_with_roles
          = users_with_roles.filter (fun user => user ∉ iam_users)) := by
  constructor
  · intro h
    have hl : localName v = mysql_username := funext fun a => by simp [localName, h]
    constructor
    · simp [users_to_grant, users_to_grant_spec, hl, h]
    · simp [users_to_revoke, users_to_revoke_spec, hl, h]
  · intro h
    constructor
    · simp [users_to_grant, h]
    · simp [users_to_revoke, h]

/-- Witness for C2 (amended) at concrete inputs for both dialects. -/
theorem C2_normalization_witness :
    users_to_grant .MYSQL_8_0 ["user@example.com"] ["other"]
        = users_to_grant_spec .MYSQL_8_0 ["user@example.com"] ["other"] ∧
    users_to_revoke .POSTGRES_14 ["a@x.com"] ["b"]
        = ["b"].filter (fun user => user ∉ ["a@x.com"]) :=
  ⟨((C2_normalization_amended .MYSQL_8_0 ["user@example.com"] ["other"]).1 (by decide)).1,
   ((C2_normalization_amended .POSTGRES_14 ["a@x.com"] ["b"]).2 (by decide)).2⟩

/-! ## C6: minor-version strings are not stripped by the code -/

/-- Claim C6 (evaluation at the failing input): the code passes the
reported `databaseVersion` string to the enum constructor without
stripping minor-version suffixes, so `MYSQL_8_0_26` raises the
unsupported-version error while `MYSQL_8_0` is routed to the MySQL
dialect — they are NOT routed alike, contradicting the claim and the
repository's own unit test (`tests/unit/test_database_versions.py`
imports a `strip_minor_version` that `utils.py` does not define). -/
theorem C6_minor_version_not_stripped :
    get_database_version "MYSQL_8_0_26" = .error "Unsupported database version for instance" ∧
    get_database_version "MYSQL_8_0" = .ok DatabaseVersion.MYSQL_8_0 ∧
    get_database_version "POSTGRES_9_6" = .ok DatabaseVersion.POSTGRES_9_6 :=
  ⟨rfl, rfl, rfl⟩

/-! ## C8: empty grant/revoke lists are no-ops -/

/-- Claim C8: for every role and both dialects, `grant_group_role` and
`revoke_group_role` on an empty user list execute no SQL statement and
leave the grant state unchanged. -/
theorem C8_empty_grant_revoke_noop (role : String) (db : DbState) :
    MysqlRoleService.grant_group_role role [] db = (db, []) ∧
    MysqlRoleService.revoke_group_role role [] db = (db, []) ∧
    PostgresRoleService.grant_group_role role [] db = (db, []) ∧
    PostgresRoleService.revoke_group_role role [] db = (db, []) :=
  ⟨rfl, rfl, rfl, rfl⟩

/-! ## C9: the two dialect predicates partition the enum -/

/-- Claim C9: every `DatabaseVersion` member satisfies exactly one of
`is_mysql` and `is_postgres`, so the orchestrator's two-way dispatch
(MySQL branch else Postgres branch) is exhaustive and unambiguous. -/
theorem C9_dialect_partition (v : DatabaseVersion) :
    (v.is_mysql = true ∧ v.is_postgres = false)
      ∨ (v.is_mysql = false ∧ v.is_postgres = true) := by
  cases v <;> simp [DatabaseVersion.is_mysql, DatabaseVersion.is_postgres,
    DatabaseVersion.value, startswith] <;> decide

/-! ## C10: verify_group_role_length with group_roles = None -/

/-- Claim C10: `verify_group_role_length` called with `group_roles = None`
and a non-empty group list raises `AttributeError` (from `None.get`), not
`GroupRoleMaxLengthError`. -/
theorem C10_verify_none_attribute_error (iam_groups : List String)
    (database_version : DatabaseVersion) (h : iam_groups ≠ []) :
    verify_group_role_length iam_groups none database_version
      = .error SyncError.AttributeError := by
  cases iam_groups with
  | nil => exact absurd rfl h
  | cons g rest => rfl

/-- Witness for C10 at a concrete non-empty group list. -/
theorem C10_verify_none_witness :
    verify_group_role_length ["iam-group@test.com"] none DatabaseVersion.MYSQL_8_0
      = .error SyncError.AttributeError :=
  C10_verify_none_attribute_error ["iam-group@test.com"] DatabaseVersion.MYSQL_8_0 (by decide)

/-! ## Resolver: loop lemmas and invariants -/

theorem group_loop_cons_ok {dir : Directory} {g : String} {ms : List Member}
    (h : get_group_members dir g = .ok ms) (searched rest : List String)
    (users : Finset String) :
    group_loop dir searched (g :: rest) users
      = group_loop dir (searched ++ newGroups searched ms) (rest ++ newGroups searched ms)
          (users ∪ (userEmails ms).toFinset) := by
  rw [group_loop.eq_2]
  split
  · rename_i e he
    rw [h] at he
    cases he
  · rename_i ms' hms
    rw [h] at hms
    cases hms
    rfl

theorem group_loop_cons_error {dir : Directory} {g e : String}
    (h : get_group_members dir g = .error e) (searched rest : List String)
    (users : Finset String) :
    group_loop dir searched (g :: rest) users = .error e := by
  rw [group_loop.eq_2]
  split
  · rename_i e' he
    rw [h] at he
    cases he
    rfl
  · rename_i ms' hms
    rw [h] at hms
    cases hms

theorem loopInv_init (dir : Directory) (group : String) :
    LoopInv dir group [group] [group] ∅ := by
  refine ⟨List.mem_singleton.mpr rfl, fun g hg => hg, List.nodup_singleton group,
    ?_, by simp, ?_⟩
  · intro g hg
    rw [List.mem_singleton] at hg
    subst hg
    exact ReachableGroup.base
  · intro g hg hq
    exact absurd hg hq

theorem loopInv_step {dir : Directory} {start g : String} {searched rest : List String}
    {users : Finset String} {ms : List Member}
    (inv : LoopInv dir start searched (g :: rest) users)
    (hok : get_group_members dir g = .ok ms) :
    LoopInv dir start (searched ++ newGroups searched ms) (rest ++ newGroups searched ms)
      (users ∪ (userEmails ms).toFinset) := by
  have hg_searched : g ∈ searched := inv.queue_sub g (List.mem_cons_self _ _)
  have hg_reach : ReachableGroup dir start g := inv.searched_reach g hg_searched
  refine ⟨List.mem_append_left _ inv.start_mem, ?_, ?_, ?_, ?_, ?_⟩
  · intro x hx
    rcases List.mem_append.mp hx with hx | hx
    · exact List.mem_append_left _ (inv.queue_sub x (List.mem_cons_of_mem _ hx))
    · exact List.mem_append_right _ hx
  · refine List.Nodup.append ?_ newGroups_nodup ?_
    · exact (List.nodup_cons.mp inv.queue_nodup).2
    · intro x hx hx'
      rcases newGroups_sub x hx' with ⟨hns, _⟩
      exact hns (inv.queue_sub x (List.mem_cons_of_mem _ hx))
  · intro x hx
    rcases List.mem_append.mp hx with hx | hx
    · exact inv.searched_reach x hx
    · rcases newGroups_sub x hx with ⟨_, hge⟩
      exact ReachableGroup.step hg_reach hok hge
  · intro u hu
    rcases Finset.mem_union.mp hu with hu | hu
    · exact inv.users_sound u hu
    · exact ⟨g, ms, hg_reach, hok, List.mem_toFinset.mp hu⟩
  · intro x hx hq
    have hx_not_added : x ∉ newGroups searched ms := fun hc =>
      hq (List.mem_append_right _ hc)
    have hx_searched : x ∈ searched := by
      rcases List.mem_append.mp hx with hx | hx
      · exact hx
      · exact absurd hx hx_not_added
    by_cases hxg : x = g
    · subst hxg
      refine ⟨ms, hok, ?_, ?_⟩
      · intro e he
        exact newGroups_cover e he
      · intro u hu
        exact Finset.mem_union_right _ (List.mem_toFinset.mpr hu)
    · have hx_not_queue : x ∉ g :: rest := by
        intro hc
        rcases List.mem_cons.mp hc with rfl | hc'
        · exact hxg rfl
        · exact hq (List.mem_append_left _ hc')
      rcases inv.processed x hx_searched hx_not_queue with ⟨ms', hok', hgs, hus⟩
      exact ⟨ms', hok', fun e he => List.mem_append_left _ (hgs e he),
        fun u hu => Finset.mem_union_left _ (hus u hu)⟩

theorem group_loop_ok_of_reach_ok {dir : Directory} {start : String}
    (hreach : ∀ g, ReachableGroup dir start g → ∃ ms, get_group_members dir g = .ok ms) :
    ∀ searched queue users, LoopInv dir start searched queue users →
      ∃ S, group_loop dir searched queue users = .ok S := by
  intro searched queue users
  induction searched, queue, users using group_loop.induct dir with
  | case1 searched users =>
    intro _
    exact ⟨users, by rw [group_loop.eq_1]⟩
  | case2 searched users g rest e herr =>
    intro inv
    have hg : ReachableGroup dir start g :=
      inv.searched_reach g (inv.queue_sub g (List.mem_cons_self _ _))
    rcases hreach g hg with ⟨ms, hok⟩
    rw [hok] at herr
    cases herr
  | case3 searched users g rest ms hok ih =>
    intro inv
    rw [group_loop_cons_ok hok]
    exact ih (loopInv_step inv hok)

theorem group_loop_ok_spec {dir : Directory} {start : String} :
    ∀ searched queue users, LoopInv dir start searched queue users →
      ∀ S, group_loop dir searched queue users = .ok S →
        (∀ u, u ∈ S ↔ ReachableUser dir start u) ∧
        (∀ g, ReachableGroup dir start g → ∃ ms, get_group_members dir g = .ok ms) := by
  intro searched queue users
  induction searched, queue, users using group_loop.induct dir with
  | case1 searched users =>
    intro inv S hS
    rw [group_loop.eq_1] at hS
    cases hS
    have hclosed : ∀ g, ReachableGroup dir start g → g ∈ searched := by
      intro g hg
      induction hg with
      | base => exact inv.start_mem
      | step hg' hok hmem ih =>
        rcases inv.processed _ ih (List.not_mem_nil _) with ⟨ms', hok', hgs, _⟩
        rename_i g'' e'' ms''
        rw [hok'] at hok
        cases hok
        exact hgs _ hmem
    constructor
    · intro u
      constructor
      · exact inv.users_sound u
      · rintro ⟨g, ms, hg, hok, hu⟩
        rcases inv.processed g (hclosed g hg) (List.not_mem_nil _) with ⟨ms', hok', _, hus⟩
        rw [hok'] at hok
        cases hok
        exact hus u hu
    · intro g hg
      rcases inv.processed g (hclosed g hg) (List.not_mem_nil _) with ⟨ms', hok', _, _⟩
      exact ⟨ms', hok'⟩
  | case2 searched users g rest e herr =>
    intro inv S hS
    rw [group_loop_cons_error herr] at hS
    cases hS
  | case3 searched users g rest ms hok ih =>
    intro inv S hS
    rw [group_loop_cons_ok hok] at hS
    exact ih (loopInv_step inv hok) S hS

theorem reach_ok_of_closed {dir : Directory} {start : String}
    (h : directory_closed dir start = true) :
    ∀ g, ReachableGroup dir start g → ∃ ms, get_group_members dir g = .ok ms := by
  have hstart : isOk (get_group_members dir start) = true := by
    have := (Bool.and_eq_true _ _).mp h
    exact this.1
  have hall := (Bool.and_eq_true _ _).mp h |>.2
  intro g hg
  induction hg with
  | base =>
    rcases hx : get_group_members dir start with e | ms
    · rw [hx] at hstart
      simp [isOk] at hstart
    · exact ⟨ms, rfl⟩
  | step hg' hok hmem ih =>
    rename_i g' e' ms'
    have hfind : ∃ p ∈ dir, p.2 = .ok ms' := by
      unfold get_group_members at hok
      split at hok
      · rename_i p hp
        exact ⟨p, List.mem_of_find?_eq_some hp, hok⟩
      · cases hok
    rcases hfind with ⟨p, hpmem, hp2⟩
    have := List.all_eq_true.mp hall p hpmem
    rw [hp2] at this
    have he := List.all_eq_true.mp this e' hmem
    rcases hx : get_group_members dir e' with e | ms
    · rw [hx] at he
      simp [isOk] at he
    · exact ⟨ms, rfl⟩

/-! ## C3: resolver terminates and returns the reachable users -/

/-- Claim C3: for every finite group-membership directory — cycles of any
depth included — the resolver's BFS (`resolve_group`, the per-group body
of `get_iam_users`) terminates (it is a total function, defined by
well-founded recursion on the unsearched enqueueable groups) and, when
every reachable group's lookup succeeds, returns exactly the set of
`USER`-kind members transitively reachable from the starting group, each
appearing exactly once (the result is a finite set). -/
theorem C3_resolver_terminates_correct (dir : Directory) (group : String)
    (hreach : ∀ g, ReachableGroup dir group g → ∃ ms, get_group_members dir g = .ok ms) :
    ∃ S : Finset String, resolve_group dir group = .ok S ∧
      ∀ u, u ∈ S ↔ ReachableUser dir group u := by
  rcases group_loop_ok_of_reach_ok hreach [group] [group] ∅ (loopInv_init dir group) with ⟨S, hS⟩
  exact ⟨S, hS,
    (group_loop_ok_spec [group] [group] ∅ (loopInv_init dir group) S hS).1⟩

/-- Witness for C3 on the cyclic two-group directory taken from the
repository's own cycle test. -/
theorem C3_resolver_witness :
    ∃ S : Finset String, resolve_group cycleDirectory "test-group3@xyz.com" = .ok S ∧
      ∀ u, u ∈ S ↔ ReachableUser cycleDirectory "test-group3@xyz.com" u :=
  C3_resolver_terminates_correct cycleDirectory "test-group3@xyz.com"
    (reach_ok_of_closed (by decide))

/-! ## C7: lookup errors propagate, nested groups included -/

/-- Claim C7 (counterexample): a directory-lookup failure for a nested
group is NOT treated as "no additional members" — it makes
`resolve_group` (and hence `get_iam_users`) fail even though the
top-level group's lookup succeeded. -/
theorem C7_nested_error_counterexample :
    resolve_group nestedFailDirectory "top-group@test.com"
      = .error ("Error: Failed to get IAM members of IAM group nested-group@test.com" ++
          ". Verify group exists and is configured correctly.") := by
  have h1 : get_group_members nestedFailDirectory "top-group@test.com"
      = .ok [⟨"GROUP", "nested-group@test.com"⟩, ⟨"USER", "user@test.com"⟩] := rfl
  have h2 : get_group_members nestedFailDirectory "nested-group@test.com"
      = .error ("Error: Failed to get IAM members of IAM group nested-group@test.com" ++
          ". Verify group exists and is configured correctly.") := rfl
  show group_loop nestedFailDirectory _ _ _ = _
  rw [group_loop_cons_ok h1]
  simp +decide [newGroups, userEmails]
  rw [group_loop_cons_error h2]
  rfl

/-- Claim C7 (amended): group resolution fails exactly when the directory
lookup of some transitively reachable group — the top-level group or any
nested group — fails; a nested lookup failure is propagated, not treated
as an empty member list. -/
theorem C7_error_propagation_amended (dir : Directory) (group : String) :
    (∃ e, resolve_group dir group = .error e) ↔
      (∃ g, ReachableGroup dir group g ∧ ∃ e, get_group_members dir g = .error e) := by
  constructor
  · rintro ⟨e, he⟩
    by_contra hc
    push_neg at hc
    have hreach : ∀ g, ReachableGroup dir group g →
        ∃ ms, get_group_members dir g = .ok ms := by
      intro g hg
      rcases hx : get_group_members dir g with e' | ms
      · exact absurd hx (hc g hg e')
      · exact ⟨ms, rfl⟩
    rcases group_loop_ok_of_reach_ok hreach [group] [group] ∅ (loopInv_init dir group)
      with ⟨S, hS⟩
    rw [show resolve_group dir group = group_loop dir [group] [group] ∅ from rfl, hS] at he
    cases he
  · rintro ⟨g, hg, e, he⟩
    rcases hx : resolve_group dir group with e' | S
    · exact ⟨e', rfl⟩
    · exfalso
      rcases (group_loop_ok_spec [group] [group] ∅ (loopInv_init dir group) S hx).2 g hg
        with ⟨ms, hok⟩
      rw [he] at hok
      cases hok

/-! ## C4: grant-edge state lemmas and idempotence -/

theorem mem_revokeEdge {db : DbState} {role user : String} {x : String × String} :
    x ∈ revokeEdge db role user ↔ x ∈ db ∧ x ≠ (role, user) := by
  simp [revokeEdge]

theorem mem_grantEdge {db : DbState} {role user : String} {x : String × String} :
    x ∈ grantEdge db role user ↔ x ∈ db ∨ x = (role, user) := by
  unfold grantEdge
  split
  · rename_i h
    constructor
    · exact Or.inl
    · rintro (hx | rfl)
      · exact hx
      · exact h
  · simp

theorem mem_foldl_revokeEdge {role : String} :
    ∀ (l : List String) (db : DbState) (x : String × String),
      x ∈ l.foldl (fun d user => revokeEdge d role user) db
        ↔ x ∈ db ∧ ∀ u ∈ l, x ≠ (role, u) := by
  intro l
  induction l with
  | nil => simp
  | cons a l ih =>
    intro db x
    rw [List.foldl_cons, ih, mem_revokeEdge]
    simp only [List.forall_mem_cons]
    tauto

theorem mem_foldl_grantEdge {role : String} :
    ∀ (l : List String) (db : DbState) (x : String × String),
      x ∈ l.foldl (fun d user => grantEdge d role user) db
        ↔ x ∈ db ∨ ∃ u ∈ l, x = (role, u) := by
  intro l
  induction l with
  | nil => simp
  | cons a l ih =>
    intro db x
    rw [List.foldl_cons, ih, mem_grantEdge]
    constructor
    · rintro ((hx | rfl) | ⟨u, hu, rfl⟩)
      · exact Or.inl hx
      · exact Or.inr ⟨a, List.mem_cons_self _ _, rfl⟩
      · exact Or.inr ⟨u, List.mem_cons_of_mem _ hu, rfl⟩
    · rintro (hx | ⟨u, hu, rfl⟩)
      · exact Or.inl (Or.inl hx)
      · rcases List.mem_cons.mp hu with rfl | hu'
        · exact Or.inl (Or.inr rfl)
        · exact Or.inr ⟨u, hu', rfl⟩

theorem revoke_dispatch_state (v : DatabaseVersion) (role : String) (users : List String)
    (db : DbState) :
    (if v.is_mysql then MysqlRoleService.revoke_group_role role users db
      else PostgresRoleService.revoke_group_role role users db).1
      = users.foldl (fun d user => revokeEdge d role user) db := by
  cases users with
  | nil =>
    by_cases h : v.is_mysql <;>
      simp [h, MysqlRoleService.revoke_group_role, PostgresRoleService.revoke_group_role]
  | cons u us =>
    by_cases h : v.is_mysql <;>
      simp [h, MysqlRoleService.revoke_group_role, PostgresRoleService.revoke_group_role]

theorem grant_dispatch_state (v : DatabaseVersion) (role : String) (users : List String)
    (db : DbState) :
    (if v.is_mysql then MysqlRoleService.grant_group_role role users db
      else PostgresRoleService.grant_group_role role users db).1
      = users.foldl (fun d user => grantEdge d role user) db := by
  cases users with
  | nil =>
    by_cases h : v.is_mysql <;>
      simp [h, MysqlRoleService.grant_group_role, PostgresRoleService.grant_group_role]
  | cons u us =>
    by_cases h : v.is_mysql <;>
      simp [h, MysqlRoleService.grant_group_role, PostgresRoleService.grant_group_role]

theorem fetch_role_grants_eq (v : DatabaseVersion) (db : DbState) (role : String) :
    fetch_role_grants v db role = db.filter (fun p => p.1 = role) := by
  by_cases h : v.is_mysql <;>
    simp [fetch_role_grants, h, MysqlRoleService.fetch_role_grants,
      PostgresRoleService.fetch_role_grants]

theorem mem_get_users_with_roles {v : DatabaseVersion} {db : DbState} {role u : String} :
    u ∈ get_users_with_roles v db role ↔ (role, u) ∈ db := by
  simp only [get_users_with_roles, fetch_role_grants_eq, List.mem_map, List.mem_filter,
    decide_eq_true_eq]
  constructor
  · rintro ⟨⟨r, w⟩, ⟨hmem, hr⟩, hw⟩
    simp only at hr hw
    subst hr
    subst hw
    exact hmem
  · intro h
    exact ⟨(role, u), ⟨h, rfl⟩, rfl⟩

theorem sync_pair_components (v : DatabaseVersion) (role : String) (iam_users : List String)
    (db : DbState) :
    (sync_pair v role iam_users db).1
        = users_to_revoke v iam_users (get_users_with_roles v db role) ∧
    (sync_pair v role iam_users db).2.1
        = users_to_grant v iam_users (get_users_with_roles v db role) ∧
    (sync_pair v role iam_users db).2.2
        = (users_to_grant v iam_users (get_users_with_roles v db role)).foldl
            (fun d user => grantEdge d role user)
            ((users_to_revoke v iam_users (get_users_with_roles v db role)).foldl
              (fun d user => revokeEdge d role user) db) := by
  refine ⟨rfl, rfl, ?_⟩
  simp only [sync_pair, grant_iam_group_role, revoke_iam_group_role]
  rw [grant_dispatch_state, revoke_dispatch_state]

theorem sync_pair_state_mem (v : DatabaseVersion) (role : String) (iam_users : List String)
    (db : DbState) (x : String × String) :
    x ∈ (sync_pair v role iam_users db).2.2 ↔
      (x.1 ≠ role ∧ x ∈ db) ∨
      (x.1 = role ∧ x.2 ∈ (if v.is_mysql then iam_users.map mysql_username else iam_users)) := by
  obtain ⟨r, u⟩ := x
  rw [(sync_pair_components v role iam_users db).2.2]
  rw [mem_foldl_grantEdge, mem_foldl_revokeEdge]
  by_cases hr : r = role
  · subst hr
    have hrev : (∀ w ∈ users_to_revoke v iam_users (get_users_with_roles v db r),
        (r, u) ≠ (r, w)) ↔ u ∉ users_to_revoke v iam_users (get_users_with_roles v db r) := by
      constructor
      · intro hall hu
        exact hall u hu rfl
      · intro hu w hw hc
        cases hc
        exact hu hw
    have hgr : (∃ w ∈ users_to_grant v iam_users (get_users_with_roles v db r),
        (r, u) = (r, w)) ↔ u ∈ users_to_grant v iam_users (get_users_with_roles v db r) := by
      constructor
      · rintro ⟨w, hw, hc⟩
        cases hc
        exact hw
      · intro hu
        exact ⟨u, hu, rfl⟩
    rw [hrev, hgr, mem_users_to_revoke, mem_users_to_grant]
    have hdb : (r, u) ∈ db ↔ u ∈ get_users_with_roles v db r := mem_get_users_with_roles.symm
    rw [hdb]
    simp only [ne_eq, not_true_eq_false, false_and, false_or, true_and]
    by_cases h1 : u ∈ get_users_with_roles v db r <;>
      by_cases h2 : u ∈ (if v.is_mysql then iam_users.map mysql_username else iam_users) <;>
        simp [h1, h2]
  · constructor
    · rintro (⟨hx, _⟩ | ⟨w, _, hc⟩)
      · exact Or.inl ⟨hr, hx⟩
      · exact absurd (congrArg Prod.fst hc) hr
    · rintro (⟨_, hx⟩ | ⟨hc, _⟩)
      · refine Or.inl ⟨hx, ?_⟩
        intro w _ hc
        exact hr (congrArg Prod.fst hc)
      · exact absurd hc hr

/-- Claim C4: running the per-pair reconciliation twice with unchanged
group membership produces empty revoke and grant lists on the second run
— the first run's applied plan makes the held set equal to the desired
set. -/
theorem C4_sync_idempotent (v : DatabaseVersion) (role : String) (iam_users : List String)
    (db : DbState) :
    (sync_pair v role iam_users ((sync_pair v role iam_users db).2.2)).1 = [] ∧
    (sync_pair v role iam_users ((sync_pair v role iam_users db).2.2)).2.1 = [] := by
  have hmem : ∀ u, (role, u) ∈ (sync_pair v role iam_users db).2.2
      ↔ u ∈ (if v.is_mysql then iam_users.map mysql_username else iam_users) := by
    intro u
    rw [sync_pair_state_mem]
    simp
  constructor
  · rw [(sync_pair_components v role iam_users _).1]
    refine List.eq_nil_iff_forall_not_mem.mpr ?_
    intro x hx
    rw [mem_users_to_revoke] at hx
    rcases hx with ⟨hheld, hnot⟩
    rw [mem_get_users_with_roles, hmem] at hheld
    exact hnot hheld
  · rw [(sync_pair_components v role iam_users _).2.1]
    refine List.eq_nil_iff_forall_not_mem.mpr ?_
    intro x hx
    rw [mem_users_to_grant] at hx
    rcases hx with ⟨hdes, hnot⟩
    exact hnot (mem_get_users_with_roles.mpr ((hmem x).mpr hdes))

/-! ## C5: pre-flight length check ordering -/

theorem verify_some_ok_iff (roles : List (String × String)) (v : DatabaseVersion) :
    ∀ gs : List String,
      verify_group_role_length gs (some roles) v = .ok () ↔
        ∀ g ∈ gs, strlen (dict_get roles g (mysql_username g)) ≤ char_limit v := by
  intro gs
  induction gs with
  | nil => simp [verify_group_role_length]
  | cons g r ih =>
    rw [verify_group_role_length]
    by_cases h : strlen (dict_get roles g (mysql_username g)) > char_limit v
    · rw [if_pos h]
      constructor
      · intro hc
        cases hc
      · intro hall
        exact absurd (hall g (List.mem_cons_self _ _)) (by omega)
    · rw [if_neg h]
      rw [ih]
      constructor
      · intro hall g' hg'
        rcases List.mem_cons.mp hg' with rfl | hg''
        · omega
        · exact hall g' hg''
      · intro hall g' hg'
        exact hall g' (List.mem_cons_of_mem _ hg')

theorem instance_loop_none_iff (gs : List String) (roles : List (String × String))
    (dbv : String → DatabaseVersion) :
    ∀ insts : List String,
      (instance_loop gs roles dbv insts).2 = none ↔
        ∀ i ∈ insts, verify_group_role_length gs (some roles) (dbv i) = .ok () := by
  intro insts
  induction insts with
  | nil => simp [instance_loop]
  | cons i is' ih =>
    rw [instance_loop]
    rcases hv : verify_group_role_length gs (some roles) (dbv i) with e | u
    · simp only
      constructor
      · intro hc
        cases hc
      · intro hall
        exact absurd (hall i (List.mem_cons_self _ _)) (by rw [hv]; intro hc; cases hc)
    · cases u
      simp only
      rw [ih]
      constructor
      · intro hall i' hi'
        rcases List.mem_cons.mp hi' with rfl | hi''
        · exact hv
        · exact hall i' hi''
      · intro hall i' hi'
        exact hall i' (List.mem_cons_of_mem _ hi')

theorem instance_loop_events (gs : List String) (roles : List (String × String))
    (dbv : String → DatabaseVersion) :
    ∀ insts : List String, ∀ ev ∈ (instance_loop gs roles dbv insts).1,
      ∃ i, ev = Event.schedule_instance_users i ∨ ev = Event.net_get_database_version i := by
  intro insts
  induction insts with
  | nil => simp [instance_loop]
  | cons i is' ih =>
    intro ev hev
    rw [instance_loop] at hev
    rcases hv : verify_group_role_length gs (some roles) (dbv i) with e | u
    · rw [hv] at hev
      rcases List.mem_cons.mp hev with rfl | hev
      · exact ⟨i, Or.inl rfl⟩
      · rcases List.mem_cons.mp hev with rfl | hev
        · exact ⟨i, Or.inr rfl⟩
        · simp at hev
    · cases u
      rw [hv] at hev
      simp only [List.cons_append, List.nil_append, List.mem_cons] at hev
      rcases hev with rfl | rfl | hev
      · exact ⟨i, Or.inl rfl⟩
      · exact ⟨i, Or.inr rfl⟩
      · exact ih ev hev

/-- Claim C5 (counterexample): for a group whose default role name
exceeds the MySQL limit, `groups_sync` does raise the
`GroupRoleMaxLengthError`, but only after a network call — the
database-version lookup for the instance (and the scheduling of the
group-resolution task) precede it in the trace, so the error is NOT
raised before any network/database call. -/
theorem C5_preflight_counterexample :
    (groups_sync ["super-super-duper-duper-long-email@test.com"] ["proj:region:inst"] []
        (fun _ => DatabaseVersion.MYSQL_8_0)).2
      = .error (SyncError.GroupRoleMaxLengthError
          "super-super-duper-duper-long-email@test.com") ∧
    Event.net_get_database_version "proj:region:inst"
      ∈ (groups_sync ["super-super-duper-duper-long-email@test.com"] ["proj:region:inst"] []
          (fun _ => DatabaseVersion.MYSQL_8_0)).1 := by
  constructor
  · rfl
  · decide

/-- Claim C5 (amended): `groups_sync` raises `GroupRoleMaxLengthError`
exactly when some target instance's dialect limit is exceeded by some
group's effective role name; the error is raised after the instances'
database-version lookups (network calls) but before any per-pair
database work (no `pair_work` step is in the trace of a failing run);
when every effective role name is within every instance's limit, no such
error is raised and the per-pair work of every (group, instance) pair
runs. -/
theorem C5_preflight_amended (gs insts : List String) (roles : List (String × String))
    (dbv : String → DatabaseVersion) :
    ((groups_sync gs insts roles dbv).2 = .ok () ↔
      ∀ i ∈ insts, ∀ g ∈ gs, strlen (dict_get roles g (mysql_username g)) ≤ char_limit (dbv i)) ∧
    (∀ e, (groups_sync gs insts roles dbv).2 = .error e →
      ∀ g i, Event.pair_work g i ∉ (groups_sync gs insts roles dbv).1) ∧
    ((groups_sync gs insts roles dbv).2 = .ok () →
      ∀ g ∈ gs, ∀ i ∈ insts, Event.pair_work g i ∈ (groups_sync gs insts roles dbv).1) := by
  refine ⟨?_, ?_, ?_⟩
  · rcases hl : (instance_loop gs roles dbv insts).2 with _ | e
    · simp only [groups_sync, hl]
      constructor
      · intro _ i hi g hg
        have := (instance_loop_none_iff gs roles dbv insts).mp hl i hi
        exact (verify_some_ok_iff roles (dbv i) gs).mp this g hg
      · intro _
        trivial
    · simp only [groups_sync, hl]
      constructor
      · intro hc
        cases hc
      · intro hall
        have : (instance_loop gs roles dbv insts).2 = none :=
          (instance_loop_none_iff gs roles dbv insts).mpr fun i hi =>
            (verify_some_ok_iff roles (dbv i) gs).mpr (hall i hi)
        rw [hl] at this
        cases this
  · intro e he g i hmem
    rcases hl : (instance_loop gs roles dbv insts).2 with _ | e'
    · simp only [groups_sync, hl] at he
      cases he
    · simp only [groups_sync, hl] at hmem
      rcases List.mem_append.mp hmem with hmem | hmem
      · rcases List.mem_map.mp hmem with ⟨g', _, hc⟩
        cases hc
      · rcases instance_loop_events gs roles dbv insts _ hmem with ⟨i', hc | hc⟩ <;> cases hc
  · intro hok g hg i hi
    rcases hl : (instance_loop gs roles dbv insts).2 with _ | e
    · simp only [groups_sync, hl]
      refine List.mem_append_right _ ?_
      simp only [pair_events, List.mem_flatten, List.mem_map]
      exact ⟨(insts.map (fun i' => Event.pair_work g i')), ⟨g, hg, rfl⟩,
        List.mem_map.mpr ⟨i, hi, rfl⟩⟩
    · simp only [groups_sync, hl] at hok
      cases hok

/-- Witness for C5 (amended): an oversized default role name yields the
error with no pair work in the trace, and an in-limit group syncs with
outcome ok. -/
theorem C5_preflight_witness :
    Event.pair_work "super-super-duper-duper-long-email@test.com" "proj:region:inst"
      ∉ (groups_sync ["super-super-duper-duper-long-email@test.com"] ["proj:region:inst"] []
          (fun _ => DatabaseVersion.MYSQL_8_0)).1 ∧
    (groups_sync ["iam-group@test.com"] ["proj:region:inst"] []
        (fun _ => DatabaseVersion.MYSQL_8_0)).2 = .ok () := by
  constructor
  · exact (C5_preflight_amended ["super-super-duper-duper-long-email@test.com"]
      ["proj:region:inst"] [] (fun _ => DatabaseVersion.MYSQL_8_0)).2.1
      (SyncError.GroupRoleMaxLengthError "super-super-duper-duper-long-email@test.com")
      (by rfl) "super-super-duper-duper-long-email@test.com" "proj:region:inst"
  · exact (C5_preflight_amended ["iam-group@test.com"] ["proj:region:inst"] []
      (fun _ => DatabaseVersion.MYSQL_8_0)).1.mpr (by decide)

end IamGroupsAuthn
